import Mathlib

/-!
Verification development for the G-code → STL conversion core of this
repository (`gcode_to_stl_ultra.py`): the segment extractor
`parse_gcode_to_segments`, the mesh builder
`create_cylindrical_extrusion_mesh`, and the serializer `write_stl_binary`.

Numeric model: Python floats are modelled as exact rational scalars.  The
extractor works entirely on rationals.  The mesh builder also needs cos/sin
of multiples of 45 degrees, whose exact values lie in the quadratic field
Q[sqrt 2], modelled below by the computable structure `Q2`.  Square roots of
rationals are embedded by `ratSqrt`, exact whenever the true square root is
rational (which covers every value any theorem below depends on).  The
`np.isfinite` guard of the mesh builder is vacuous in this model (rationals
are always finite) and is therefore omitted.
-/

attribute [local semireducible] Rat.mul Rat.inv Rat.add Rat.sub Rat.ofScientific

/-! ### Integer and rational square roots -/

/-- Largest j ≤ k with j * j ≤ n (counting down from k). -/
def isqrtGo (n : ℕ) : ℕ → ℕ
  | 0 => 0
  | k + 1 => if (k + 1) * (k + 1) ≤ n then k + 1 else isqrtGo n k

/-- Integer square root (largest j with j * j ≤ n), by downward search. -/
def isqrt (n : ℕ) : ℕ := isqrtGo n n

/-- Embedding of float `np.sqrt` on rationals: 0 on nonpositive input, exact
whenever the true square root is rational, and otherwise the positive value
⌊sqrt(num·den)⌋/den (a floor approximation; no theorem below depends on the
inexact values, only on positivity). -/
def ratSqrt (q : ℚ) : ℚ :=
  if q ≤ 0 then 0
  else if isqrt q.num.toNat * isqrt q.num.toNat = q.num.toNat ∧
          isqrt q.den * isqrt q.den = q.den then
    mkRat (isqrt q.num.toNat) (isqrt q.den)
  else
    mkRat (isqrt (q.num.toNat * q.den)) q.den

/-! ### The quadratic field Q[sqrt 2] -/

/-- An element a + b·sqrt 2 of Q[sqrt 2]. -/
structure Q2 where
  a : ℚ
  b : ℚ
deriving DecidableEq

def Q2.ofRat (q : ℚ) : Q2 := ⟨q, 0⟩

def Q2.add (x y : Q2) : Q2 := ⟨x.a + y.a, x.b + y.b⟩

def Q2.neg (x : Q2) : Q2 := ⟨-x.a, -x.b⟩

def Q2.sub (x y : Q2) : Q2 := ⟨x.a - y.a, x.b - y.b⟩

def Q2.mul (x y : Q2) : Q2 := ⟨x.a * y.a + 2 * x.b * y.b, x.a * y.b + x.b * y.a⟩

/-- Multiplicative inverse in Q[sqrt 2]; the determinant a² - 2b² vanishes
only at 0 (by irrationality of sqrt 2), where we return 0 — matching the
convention that the code never divides by zero on the inputs it reaches. -/
def Q2.inv (x : Q2) : Q2 :=
  let d := x.a * x.a - 2 * (x.b * x.b)
  if d = 0 then ⟨0, 0⟩ else ⟨x.a / d, -x.b / d⟩

def Q2.div (x y : Q2) : Q2 := x.mul y.inv

instance : Add Q2 := ⟨Q2.add⟩
instance : Neg Q2 := ⟨Q2.neg⟩
instance : Sub Q2 := ⟨Q2.sub⟩
instance : Mul Q2 := ⟨Q2.mul⟩
instance : Div Q2 := ⟨Q2.div⟩
instance : Zero Q2 := ⟨⟨0, 0⟩⟩
instance : One Q2 := ⟨⟨1, 0⟩⟩

/-- Decides 0 ≤ a + b·sqrt 2 by sign analysis of the two components. -/
def Q2.nonneg (x : Q2) : Bool :=
  (decide (0 ≤ x.a) && decide (0 ≤ x.b)) ||
  (decide (0 ≤ x.a) && decide (2 * (x.b * x.b) ≤ x.a * x.a)) ||
  (decide (0 ≤ x.b) && decide (x.a * x.a ≤ 2 * (x.b * x.b)))

/-- The order of the real numbers a + b·sqrt 2, decided componentwise. -/
def Q2.leb (x y : Q2) : Bool := (y.sub x).nonneg

def Q2.ltb (x y : Q2) : Bool := !(Q2.leb y x)

/-- Absolute value, as `np.abs` computes it on the real value a + b·sqrt 2. -/
def Q2.absQ (x : Q2) : Q2 := if Q2.leb 0 x then x else x.neg

/-- Square root in the Q[sqrt 2] model: on rational values it is `ratSqrt`;
values with a sqrt-2 component never have their square root taken by any
theorem below, and get a positive placeholder. -/
def Q2.sqrt (x : Q2) : Q2 := if x.b = 0 then ⟨ratSqrt x.a, 0⟩ else ⟨1, 0⟩

/-! ### 3-vectors over Q[sqrt 2] (numpy arrays of length 3) -/

abbrev V3 := Q2 × Q2 × Q2

def vlift (p : ℚ × ℚ × ℚ) : V3 := (Q2.ofRat p.1, Q2.ofRat p.2.1, Q2.ofRat p.2.2)

def vadd (u v : V3) : V3 := (u.1 + v.1, u.2.1 + v.2.1, u.2.2 + v.2.2)

def vsub (u v : V3) : V3 := (u.1 - v.1, u.2.1 - v.2.1, u.2.2 - v.2.2)

/-- `np.cross` of two 3-vectors. -/
def vcross (u v : V3) : V3 :=
  (u.2.1 * v.2.2 - u.2.2 * v.2.1,
   u.2.2 * v.1 - u.1 * v.2.2,
   u.1 * v.2.1 - u.2.1 * v.1)

def vdot (u v : V3) : Q2 := u.1 * v.1 + u.2.1 * v.2.1 + u.2.2 * v.2.2

def vscale (c : Q2) (v : V3) : V3 := (c * v.1, c * v.2.1, c * v.2.2)

def vdivs (v : V3) (c : Q2) : V3 := (v.1 / c, v.2.1 / c, v.2.2 / c)

/-- `np.linalg.norm` of a 3-vector. -/
def vnorm (v : V3) : Q2 := Q2.sqrt (vdot v v)

/-- Exact value of cos(2π·j/8) (the code's `np.cos(angle)` for its 8-sided
cross-section), an element of Q[sqrt 2]. -/
def cosTab (j : ℕ) : Q2 :=
  match j % 8 with
  | 0 => ⟨1, 0⟩
  | 1 => ⟨0, mkRat 1 2⟩
  | 2 => ⟨0, 0⟩
  | 3 => ⟨0, -mkRat 1 2⟩
  | 4 => ⟨-1, 0⟩
  | 5 => ⟨0, -mkRat 1 2⟩
  | 6 => ⟨0, 0⟩
  | _ => ⟨0, mkRat 1 2⟩

/-- Exact value of sin(2π·j/8), an element of Q[sqrt 2]. -/
def sinTab (j : ℕ) : Q2 :=
  match j % 8 with
  | 0 => ⟨0, 0⟩
  | 1 => ⟨0, mkRat 1 2⟩
  | 2 => ⟨1, 0⟩
  | 3 => ⟨0, mkRat 1 2⟩
  | 4 => ⟨0, 0⟩
  | 5 => ⟨0, -mkRat 1 2⟩
  | 6 => ⟨-1, 0⟩
  | _ => ⟨0, -mkRat 1 2⟩

/-! ### Text utilities: `str.strip`, `str.startswith`, substring test, and the
numeric-token regular expression `([-]?[0-9]+\.?[0-9]*)` of the extractor -/

/-- Python whitespace for `str.strip`. -/
def isSpaceCh (c : Char) : Bool :=
  c = ' ' || c = '\t' || c = '\n' || c = '\r' || c.toNat = 11 || c.toNat = 12

/-- Python `str.strip()`. -/
def pyStrip (cs : List Char) : List Char :=
  ((cs.dropWhile isSpaceCh).reverse.dropWhile isSpaceCh).reverse

/-- Python `str.startswith(pat)`: `hasPref pat s`. -/
def hasPref : List Char → List Char → Bool
  | [], _ => true
  | _ :: _, [] => false
  | p :: ps, c :: cs => p = c && hasPref ps cs

/-- Python `pat in s` (substring test). -/
def hasSub (pat : List Char) : List Char → Bool
  | [] => hasPref pat []
  | c :: cs => hasPref pat (c :: cs) || hasSub pat cs

def digitVal (c : Char) : ℕ := c.toNat - 48

/-- Greedy run of decimal digits at the head of the character list. -/
def takeDigits : List Char → List ℕ × List Char
  | [] => ([], [])
  | c :: cs =>
    if c.isDigit then
      let p := takeDigits cs
      (digitVal c :: p.1, p.2)
    else ([], c :: cs)

def natOfDigits (ds : List ℕ) : ℕ := ds.foldl (fun acc d => 10 * acc + d) 0

/-- Matches the token regular expression `[-]?[0-9]+\.?[0-9]*` at the head of
the list and returns the value `float()` gives to the matched token. -/
def numAt (cs : List Char) : Option ℚ :=
  let p : Bool × List Char :=
    match cs with
    | '-' :: rest => (true, rest)
    | _ => (false, cs)
  match takeDigits p.2 with
  | ([], _) => none
  | (d :: ds, rest) =>
    let ipart : ℚ := ((natOfDigits (d :: ds) : ℕ) : ℚ)
    let v : ℚ :=
      match rest with
      | '.' :: rest2 =>
        let f := takeDigits rest2
        ipart + mkRat (natOfDigits f.1) (10 ^ f.1.length)
      | _ => ipart
    some (if p.1 then -v else v)

/-- `re.search(key + number, line)`: value of the leftmost occurrence of the
key character immediately followed by a numeric token. -/
def findNumFrom (key : Char) : List Char → Option ℚ
  | [] => none
  | c :: cs =>
    if c = key then
      match numAt cs with
      | some v => some v
      | none => findNumFrom key cs
    else findNumFrom key cs

/-- `re.search(number, line)`: value of the leftmost numeric token. -/
def firstNum : List Char → Option ℚ
  | [] => none
  | c :: cs =>
    match numAt (c :: cs) with
    | some v => some v
    | none => firstNum cs

def gOneKey : List Char := "G1".toList
def gZeroKey : List Char := "G0".toList
def semiKey : List Char := ";".toList
def lhKeyA : List Char := "layer_height".toList
def lhKeyB : List Char := "layer height".toList
def ewKeyA : List Char := "extrusion_width".toList
def ewKeyB : List Char := "extrusion width".toList

/-! ### The segment extractor `parse_gcode_to_segments` -/

/-- One extrusion segment (the dict appended to `segments`). -/
structure Seg where
  startP : ℚ × ℚ × ℚ
  endP : ℚ × ℚ × ℚ
  width : ℚ
  height : ℚ
  extrusionAmount : ℚ
deriving DecidableEq

/-- The extractor's mutable state (one value per processed line). -/
structure PState where
  currentZ : ℚ
  lastX : Option ℚ
  lastY : Option ℚ
  lastZ : Option ℚ
  lastE : ℚ
  detectedLayerHeight : ℚ
  detectedExtrusionWidth : ℚ
  segments : List Seg
deriving DecidableEq

def initState (defaultLayerHeight defaultExtrusionWidth : ℚ) : PState :=
  ⟨0, none, none, none, 0, defaultLayerHeight, defaultExtrusionWidth, []⟩

/-- Slicer-settings scan of comment lines among the first 100 lines.  The
source applies the layer-height update and then the extrusion-width update in
sequence; the two touch disjoint fields and read independent conditions, so
they are rendered here as one simultaneous update. -/
def scanComment (lineNum : ℕ) (st : PState) (line : List Char) : PState :=
  if decide (lineNum < 100) && hasPref semiKey line then
    let low := line.map Char.toLower
    { st with
      detectedLayerHeight :=
        if hasSub lhKeyA low || hasSub lhKeyB low then
          match firstNum line with
          | some v => v
          | none => st.detectedLayerHeight
        else st.detectedLayerHeight,
      detectedExtrusionWidth :=
        if hasSub ewKeyA low || hasSub ewKeyB low then
          match firstNum line with
          | some v => v
          | none => st.detectedExtrusionWidth
        else st.detectedExtrusionWidth }
  else st

/-- The `if z_match:` block: layer-height detection from Z movements and the
`last_z`/`current_z` bookkeeping, in source order (note the source compares
`new_z` against the value `last_z` held before this line, and only then sets
`last_z` to the old `current_z`). -/
def applyZ (st : PState) (zM : Option ℚ) : PState :=
  match zM with
  | none => st
  | some newZ =>
    let dlh :=
      match st.lastZ with
      | some lz =>
        if lz < newZ ∧ 0.1 ≤ newZ - lz ∧ newZ - lz ≤ 1.0 then newZ - lz
        else st.detectedLayerHeight
      | none => st.detectedLayerHeight
    { st with
      detectedLayerHeight := dlh,
      lastZ := some st.currentZ,
      currentZ := newZ }

/-- The width computation of the emission block: `actual_width` as a function
of the resolved endpoint coordinates, the new cumulative E and the state.
Python `min(max(w, 0.1), 2.0)` coincides with the lattice `min`/`max` used
here. -/
def emittedWidth (st : PState) (xv yv lx ly e : ℚ) : ℚ :=
  if 0 < ratSqrt ((xv - lx) * (xv - lx) + (yv - ly) * (yv - ly)) then
    min (max (if 0 < st.detectedLayerHeight then
                (e - st.lastE)
                  / (ratSqrt ((xv - lx) * (xv - lx) + (yv - ly) * (yv - ly))
                      * st.detectedLayerHeight)
              else st.detectedExtrusionWidth) 0.1) 2.0
  else st.detectedExtrusionWidth

/-- The segment-emission block: when extruding and all four coordinates are
resolved, append one segment with the volume-derived width. -/
def emitSeg (st : PState) (x y : Option ℚ) (e : ℚ) (isExtruding : Bool) : PState :=
  match isExtruding, x, y, st.lastX, st.lastY with
  | true, some xv, some yv, some lx, some ly =>
    { st with
      segments := st.segments ++
        [⟨(lx, ly, st.currentZ), (xv, yv, st.currentZ), emittedWidth st xv yv lx ly e,
          st.detectedLayerHeight, e - st.lastE⟩] }
  | _, _, _, _, _ => st

/-- Processing of one raw line of the G-code file. -/
def processLine (lineNum : ℕ) (st : PState) (rawLine : List Char) : PState :=
  let line := pyStrip rawLine
  let st1 := scanComment lineNum st line
  if hasPref gOneKey line || hasPref gZeroKey line then
    let xM := findNumFrom 'X' line
    let yM := findNumFrom 'Y' line
    let zM := findNumFrom 'Z' line
    let eM := findNumFrom 'E' line
    let x : Option ℚ := match xM with | some v => some v | none => st1.lastX
    let y : Option ℚ := match yM with | some v => some v | none => st1.lastY
    let e : ℚ := match eM with | some v => v | none => st1.lastE
    let st2 := applyZ st1 zM
    let isExtruding := eM.isSome && decide (st2.lastE < e)
    let st3 := emitSeg st2 x y e isExtruding
    { st3 with lastX := x, lastY := y, lastE := e }
  else st1

def parseLinesFrom : ℕ → PState → List (List Char) → PState
  | _, st, [] => st
  | n, st, l :: ls => parseLinesFrom (n + 1) (processLine n st l) ls

/-- `parse_gcode_to_segments`: returns (segments, layer height, extrusion
width) after one pass over the input lines. -/
def parseGcodeToSegments (lines : List (List Char))
    (defaultLayerHeight defaultExtrusionWidth : ℚ) : List Seg × ℚ × ℚ :=
  let final := parseLinesFrom 0 (initState defaultLayerHeight defaultExtrusionWidth) lines
  (final.segments, final.detectedLayerHeight, final.detectedExtrusionWidth)

/-! ### The mesh builder `create_cylindrical_extrusion_mesh` -/

structure MeshState where
  vertices : List V3
  faces : List (ℕ × ℕ × ℕ)
  vertexCount : ℕ
deriving DecidableEq

/-- Python slicing `segments[::2]` (the `step = 2` sampling). -/
def everySecond : List α → List α
  | [] => []
  | [x] => [x]
  | x :: _ :: rest => x :: everySecond rest

/-- Squared 3D distance between the two endpoints of a segment; the source's
skip test `np.linalg.norm(end - start) < 0.001` is rendered on the squared
length (equivalent, as both sides are nonnegative and squaring is monotone). -/
def sqLen3 (s : Seg) : ℚ :=
  (s.endP.1 - s.startP.1) * (s.endP.1 - s.startP.1) +
  (s.endP.2.1 - s.startP.2.1) * (s.endP.2.1 - s.startP.2.1) +
  (s.endP.2.2 - s.startP.2.2) * (s.endP.2.2 - s.startP.2.2)

/-- The body of the loop over `enumerate(sampled_segments)`: appends one
tube (16 ring vertices, 16 side triangles) and, for the first and last index,
the two cap fans (2 apex vertices, 16 cap triangles). -/
def addSegmentGeometry (n : ℕ) (st : MeshState) (p : ℕ × Seg) : MeshState :=
  let i := p.1
  let segment := p.2
  if sqLen3 segment < 0.000001 then st
  else
    let startV := vlift segment.startP
    let endV := vlift segment.endP
    let segmentLength := Q2.sqrt (Q2.ofRat (sqLen3 segment))
    let direction := vdivs (vsub endV startV) segmentLength
    let up0 : V3 :=
      if Q2.ltb (Q2.absQ direction.2.2) (Q2.ofRat 0.9) then
        (⟨0, 0⟩, ⟨0, 0⟩, ⟨1, 0⟩)
      else
        (⟨1, 0⟩, ⟨0, 0⟩, ⟨0, 0⟩)
    let right0 := vcross direction up0
    let right := vdivs right0 (vnorm right0)
    let up1 := vcross right direction
    let up := vdivs up1 (vnorm up1)
    let radius : Q2 := Q2.ofRat (min segment.width segment.height / 2)
    let offset := fun (j : ℕ) =>
      vadd (vscale (cosTab j * radius) right) (vscale (sinTab j * radius) up)
    let startVerts := (List.range 8).map (fun j => vadd startV (offset j))
    let endVerts := (List.range 8).map (fun j => vadd endV (offset j))
    let baseIdx := st.vertexCount
    let vertices := st.vertices ++ startVerts ++ endVerts
    let vertexCount := st.vertexCount + 16
    let sideFaces := (List.range 8).flatMap (fun j =>
      let nj := (j + 1) % 8
      [(baseIdx + j, baseIdx + nj, baseIdx + 8 + j),
       (baseIdx + nj, baseIdx + 8 + nj, baseIdx + 8 + j)])
    let faces := st.faces ++ sideFaces
    if i = 0 ∨ i = n - 1 then
      let centerStartIdx := vertexCount
      let vertices := vertices ++ [startV]
      let vertexCount := vertexCount + 1
      let capStart := (List.range 8).map (fun j =>
        (centerStartIdx, baseIdx + (j + 1) % 8, baseIdx + j))
      let centerEndIdx := vertexCount
      let vertices := vertices ++ [endV]
      let vertexCount := vertexCount + 1
      let capEnd := (List.range 8).map (fun j =>
        (centerEndIdx, baseIdx + 8 + j, baseIdx + 8 + (j + 1) % 8))
      ⟨vertices, faces ++ capStart ++ capEnd, vertexCount⟩
    else
      ⟨vertices, faces, vertexCount⟩

/-- `create_cylindrical_extrusion_mesh`: the two trailing parameters are only
used for logging in the source and do not influence the mesh. -/
def createCylindricalExtrusionMesh (segments : List Seg)
    (layerHeight extrusionWidth : ℚ) : List V3 × List (ℕ × ℕ × ℕ) :=
  let sampledSegments := everySecond segments
  let final := sampledSegments.enum.foldl
    (addSegmentGeometry sampledSegments.length) ⟨[], [], 0⟩
  (final.vertices, final.faces)

/-! ### The serializer `write_stl_binary` -/

def packUInt32 (n : ℕ) : List ℕ :=
  [n % 256, n / 256 % 256, n / 256 / 256 % 256, n / 256 / 256 / 256 % 256]

def packUInt16 (n : ℕ) : List ℕ := [n % 256, n / 256 % 256]

/-- Byte encoding of one IEEE-754 float32 (`struct.pack('<f', x)`).  The
four payload byte values are not modelled (bit-level float encoding); only
the byte count, which is all the serializer shape depends on, is faithful. -/
def packFloat32 (x : Q2) : List ℕ := [0, 0, 0, 0]

def v3Bytes (v : V3) : List ℕ := packFloat32 v.1 ++ packFloat32 v.2.1 ++ packFloat32 v.2.2

def headerText : String := "Ultra high-fidelity G-code conversion - watertight mesh"

/-- The header the source writes: the 55-character marker text plus 24 zero
bytes — 79 bytes in total, although the source comments it as 80. -/
def stlHeader : List ℕ := headerText.toList.map Char.toNat ++ List.replicate 24 0

def zeroV : V3 := (⟨0, 0⟩, ⟨0, 0⟩, ⟨1, 0⟩)

/-- One 50-byte triangle record: unit normal (or the (0,0,1) fallback for a
zero-length cross product), the three vertices in face order, and the
2-byte attribute count 0. -/
def faceRecord (vertices : List V3) (face : ℕ × ℕ × ℕ) : List ℕ :=
  let v0 := vertices.getD face.1 zeroV
  let v1 := vertices.getD face.2.1 zeroV
  let v2 := vertices.getD face.2.2 zeroV
  let normal0 := vcross (vsub v1 v0) (vsub v2 v0)
  let normalLength := vnorm normal0
  let normal :=
    if Q2.ltb 0 normalLength then vdivs normal0 normalLength
    else (⟨0, 0⟩, ⟨0, 0⟩, ⟨1, 0⟩)
  v3Bytes normal ++ v3Bytes v0 ++ v3Bytes v1 ++ v3Bytes v2 ++ packUInt16 0

/-- `write_stl_binary` as the byte stream it writes. -/
def writeStlBinary (vertices : List V3) (faces : List (ℕ × ℕ × ℕ)) : List ℕ :=
  stlHeader ++ packUInt32 faces.length ++ faces.flatMap (faceRecord vertices)

/-! ### Claim-support definitions: retention predicate, per-segment count
contributions, and the concrete inputs used in evaluations and witnesses -/

/-- A segment is retained by the builder's skip test (not "extremely short"). -/
abbrev segKeep (s : Seg) : Prop := ¬ sqLen3 s < 0.000001

/-- 1 when index i receives the end caps (first or last sampled index). -/
def capIdx (n i : ℕ) : ℕ := if i = 0 ∨ i = n - 1 then 1 else 0

/-- Number of cap-carrying positions among M all-retained sampled segments. -/
def capCount (M : ℕ) : ℕ := if M = 0 then 0 else if M = 1 then 1 else 2

/-- Vertex-count contribution of one enumerated sampled segment. -/
def vContrib (n : ℕ) (p : ℕ × Seg) : ℕ :=
  if sqLen3 p.2 < 0.000001 then 0 else 16 + 2 * capIdx n p.1

/-- Face-count contribution of one enumerated sampled segment. -/
def fContrib (n : ℕ) (p : ℕ × Seg) : ℕ :=
  if sqLen3 p.2 < 0.000001 then 0 else 16 + 16 * capIdx n p.1

def demoLinesC9 : List (List Char) :=
  ["G1 X0 Y0 E0", "G1 X10 Y0 E5", "G1 X10 Y10"].map String.toList

def zLinesC3 : List (List Char) :=
  ["G1 Z0.2", "G1 Z0.4", "G1 Z0.6"].map String.toList

def linesC4 : List (List Char) :=
  ["G1 X0 Y0 E0", "G1 X5 Y5 E1", "G1 X5 Y5 E2"].map String.toList

def linesC7 : List (List Char) :=
  ["; extrusion width 5", "G1 X0 Y0 E0", "G1 E1"].map String.toList

def badTokenLine : List Char := "G1 Xabc Y0 E5".toList

def absentFieldLine : List Char := "G1 Y0 E5".toList

def linesC8bad : List (List Char) :=
  ["G1 X5 Y0 E0", "G1 Xabc Y0 E5"].map String.toList

def linesC8absent : List (List Char) :=
  ["G1 X5 Y0 E0", "G1 Y0 E5"].map String.toList

def linesC10 : List (List Char) :=
  ["G1 X0 Y0 E0", "G1 X2 Y0 Z0.3 E4"].map String.toList

def segC10 : Seg := ⟨(0, 0, 0.3), (2, 0, 0.3), 2.0, 0.2, 4⟩

def segUnit : Seg := ⟨(0, 0, 0), (1, 0, 0), 0.4, 0.2, 1⟩

def segsC2 : List Seg := [segUnit, segUnit, segUnit]

def segTwo : Seg := ⟨(0, 0, 0), (0, 2, 0), 0.5, 0.3, 1⟩

def segsC2W : List Seg := [segTwo, segTwo, segTwo, segTwo, segTwo]

def segValidC5 : Seg := ⟨(1, 1, 0.2), (4, 1, 0.2), 0.4, 0.2, 2⟩

def segDegenC5 : Seg := ⟨(7, 7, 0.2), (7, 7, 0.2), 0.4, 0.2, 1⟩

def segVert : Seg := ⟨(0, 0, 0), (0, 0, 1), 0.4, 0.2, 1⟩

def segZeroWidth : Seg := ⟨(0, 0, 0), (1, 0, 0), 0, 0.2, 1⟩

def stC4W : PState := ⟨0, some 5, some 5, none, 1, 0.2, 0.4, []⟩

def lineC4W : List Char := "G1 E3".toList

def segC4W : Seg := ⟨(5, 5, 0), (5, 5, 0), 0.4, 0.2, 2⟩

def stC7W : PState := ⟨0, some 0, some 0, none, 1, 0.2, 0.4, []⟩

def lineC7W : List Char := "G1 X3 Y4 E2".toList

def segC7W : Seg := ⟨(0, 0, 0), (3, 4, 0), 1, 0.2, 1⟩

/-! ### General-purpose arithmetic and list lemmas -/

theorem sum_map_const_nat {α : Type} (l : List α) (c : ℕ) :
    (l.map fun _ => c).sum = c * l.length := by
  induction l with
  | nil => rfl
  | cons a t ih => simp only [List.map_cons, List.sum_cons, ih, List.length_cons]; ring

theorem sum_map_add_nat (f g : ℕ → ℕ) (l : List ℕ) :
    (l.map fun i => f i + g i).sum = (l.map f).sum + (l.map g).sum := by
  induction l with
  | nil => rfl
  | cons a t ih => simp only [List.map_cons, List.sum_cons, ih]; omega

theorem isqrtGo_pos (n : ℕ) : ∀ k, 1 ≤ k → 1 ≤ n → 1 ≤ isqrtGo n k := by
  intro k
  induction k with
  | zero => intro h _; omega
  | succ k ih =>
    intro _ hn
    unfold isqrtGo
    split
    · omega
    · next hcond =>
      rcases Nat.eq_zero_or_pos k with h0 | h0
      · exfalso; subst h0; simp at hcond; omega
      · exact ih h0 hn

theorem isqrt_pos {n : ℕ} (h : 1 ≤ n) : 1 ≤ isqrt n := isqrtGo_pos n n h h

theorem ratSqrt_pos {q : ℚ} (h : 0 < q) : 0 < ratSqrt q := by
  unfold ratSqrt
  rw [if_neg (not_le.mpr h)]
  have hnum : 0 < q.num := Rat.num_pos.mpr h
  have hn : 1 ≤ q.num.toNat := by omega
  have hd : 1 ≤ q.den := q.pos
  split
  · next hex =>
    have h1 : 1 ≤ isqrt q.num.toNat := by
      rcases Nat.eq_zero_or_pos (isqrt q.num.toNat) with h0 | h0
      · exfalso; rw [h0] at hex; omega
      · exact h0
    have h2 : 1 ≤ isqrt q.den := by
      rcases Nat.eq_zero_or_pos (isqrt q.den) with h0 | h0
      · exfalso; rw [h0] at hex; omega
      · exact h0
    rw [Rat.mkRat_eq_div]
    apply div_pos
    · exact_mod_cast Int.ofNat_pos.mpr h1
    · exact_mod_cast Nat.cast_pos.mpr h2
  · have h1 : 1 ≤ isqrt (q.num.toNat * q.den) := isqrt_pos (Nat.one_le_iff_ne_zero.mpr (by positivity))
    rw [Rat.mkRat_eq_div]
    apply div_pos
    · exact_mod_cast Int.ofNat_pos.mpr h1
    · exact_mod_cast Nat.cast_pos.mpr hd

theorem ratSqrt_zero : ratSqrt 0 = 0 := by
  unfold ratSqrt
  rw [if_pos le_rfl]

/-! ### Serializer lemmas and claim C1 -/

theorem v3Bytes_length (v : V3) : (v3Bytes v).length = 12 := by
  simp [v3Bytes, packFloat32]

theorem faceRecord_length (vertices : List V3) (f : ℕ × ℕ × ℕ) :
    (faceRecord vertices f).length = 50 := by
  simp [faceRecord, v3Bytes_length, packUInt16]

/-- C1: refuted as stated; what the code does.  `write_stl_binary` writes a
79-byte header (the 55-character marker text plus 24 zero bytes, although the
source comments it as "80 bytes"), so the stream has 79 + 4 + 50·F bytes,
not 80 + 4 + 50·F, and the little-endian face count occupies offsets
79..82, not 80..83. -/
theorem writeStlBinary_length (vertices : List V3) (faces : List (ℕ × ℕ × ℕ)) :
    (writeStlBinary vertices faces).length = 79 + 4 + 50 * faces.length ∧
    ((writeStlBinary vertices faces).drop 79).take 4 = packUInt32 faces.length ∧
    79 + 4 + 50 * faces.length ≠ 80 + 4 + 50 * faces.length := by
  have hh : stlHeader.length = 79 := by decide
  refine ⟨?_, ?_, by omega⟩
  · rw [writeStlBinary]
    simp only [List.length_append, List.length_flatMap, hh]
    have hcongr : List.map (List.length ∘ faceRecord vertices) faces
        = List.map (fun _ => (50 : ℕ)) faces :=
      List.map_congr_left (fun f _ => by simp [faceRecord_length])
    rw [hcongr, sum_map_const_nat]
    simp [packUInt32]
  · rw [writeStlBinary, List.append_assoc, List.drop_left' hh,
      List.take_left' (by rfl : (packUInt32 faces.length).length = 4)]

/-! ### Claim C3: layer-height detection from Z movements -/

/-- C3: refuted as stated; what the code does.  On three Z-only motion lines
Z0.2, Z0.4, Z0.6 every consecutive Z step is 0.2 ∈ [0.1, 1.0], yet the
detected layer height comes out as 0.4: because `last_z` is assigned the old
`current_z` only after the comparison, each new Z is compared against the Z
resolved two changes back, not the immediately previous one. -/
theorem layerHeight_detection_lagged :
    (parseGcodeToSegments zLinesC3 0.2 0.4).2.1 = 0.4 ∧
    ((0.6 : ℚ) - 0.4 = 0.2) ∧ (0.4 : ℚ) ≠ 0.2 := by decide

/-! ### Claim C9: the segment-emission law -/

/-- C9: on `G1 X0 Y0 E0`, `G1 X10 Y0 E5`, `G1 X10 Y10`, exactly one segment
is emitted, from (0,0,z) to (10,0,z) with the running z = 0; the first line
emits nothing (E did not increase from 0) and the third updates the position
registers to (10, 10) without emitting (no E field). -/
theorem segment_emission_law :
    (parseGcodeToSegments demoLinesC9 0.2 0.4).1
      = [⟨(0, 0, 0), (10, 0, 0), 2, 0.2, 5⟩] ∧
    (parseLinesFrom 0 (initState 0.2 0.4) demoLinesC9).lastX = some 10 ∧
    (parseLinesFrom 0 (initState 0.2 0.4) demoLinesC9).lastY = some 10 := by decide

/-! ### Claim C5: degenerate segments interleaved with a valid one -/

/-- C5 counterexample: with the zero-length segment first, the `[::2]`
sampling keeps only the degenerate segment, so the mesh is empty and differs
from the mesh of the valid segment alone (which has 18 vertices). -/
theorem mesh_degenerate_first_differs :
    segDegenC5.startP = segDegenC5.endP ∧
    createCylindricalExtrusionMesh [segDegenC5, segValidC5] 0.2 0.4
      ≠ createCylindricalExtrusionMesh [segValidC5] 0.2 0.4 ∧
    (createCylindricalExtrusionMesh [segDegenC5, segValidC5] 0.2 0.4).1 = [] := by decide

/-- C5 (amended): a zero-length segment appended after the valid segment is
dropped by the `[::2]` sampling, and the mesh is identical to that of the
valid segment alone; with the degenerate segment first the sampling instead
drops the valid segment and the mesh is empty. -/
theorem mesh_trailing_degenerate_id (s d : Seg) (lh ew : ℚ)
    (hd : d.startP = d.endP) :
    createCylindricalExtrusionMesh [s, d] lh ew
      = createCylindricalExtrusionMesh [s] lh ew := rfl

/-- Witness for `mesh_trailing_degenerate_id` at concrete segments. -/
theorem mesh_trailing_degenerate_id_witness :
    segDegenC5.startP = segDegenC5.endP ∧
    createCylindricalExtrusionMesh [segValidC5, segDegenC5] 0.2 0.4
      = createCylindricalExtrusionMesh [segValidC5] 0.2 0.4 :=
  ⟨by decide, mesh_trailing_degenerate_id segValidC5 segDegenC5 0.2 0.4 (by decide)⟩

/-! ### Claim C2: the mesh sizing law -/

/-- C2 counterexample: three identical retained unit segments sample to
M = 2 retained non-degenerate segments, but the mesh has 36 vertices and 64
faces — not the claimed 2·8·2 + 2 = 34 and 2·8·2 + 2·8 = 48: the first and
last sampled segment each receive caps at both ends (two apex vertices and
2·N cap triangles each), not a single fan. -/
theorem mesh_sizing_claim_counterexample :
    (everySecond segsC2).length = 2 ∧
    (∀ s ∈ everySecond segsC2, segKeep s) ∧
    (createCylindricalExtrusionMesh segsC2 0.2 0.4).1.length = 36 ∧
    (createCylindricalExtrusionMesh segsC2 0.2 0.4).2.length = 64 ∧
    ¬((createCylindricalExtrusionMesh segsC2 0.2 0.4).1.length = 2 * 8 * 2 + 2 ∧
      (createCylindricalExtrusionMesh segsC2 0.2 0.4).2.length = 2 * 8 * 2 + 2 * 8) := by
  decide

theorem addSegmentGeometry_counts (n : ℕ) (st : MeshState) (p : ℕ × Seg) :
    (addSegmentGeometry n st p).vertices.length = st.vertices.length + vContrib n p ∧
    (addSegmentGeometry n st p).faces.length = st.faces.length + fContrib n p ∧
    (addSegmentGeometry n st p).vertexCount = st.vertexCount + vContrib n p := by
  simp only [addSegmentGeometry, vContrib, fContrib, capIdx]
  split
  · next h => simp [if_pos h]
  · next h =>
    split
    · next hcap =>
      refine ⟨?_, ?_, ?_⟩ <;>
        simp [if_neg h, if_pos hcap, List.length_append, List.length_flatMap,
          Function.comp_def, sum_map_const_nat]
    · next hcap =>
      refine ⟨?_, ?_, ?_⟩ <;>
        simp [if_neg h, if_neg hcap, List.length_append, List.length_flatMap,
          Function.comp_def, sum_map_const_nat]

theorem foldl_addSegmentGeometry_counts (n : ℕ) (l : List (ℕ × Seg)) (st : MeshState) :
    (l.foldl (addSegmentGeometry n) st).vertices.length
        = st.vertices.length + (l.map (vContrib n)).sum ∧
    (l.foldl (addSegmentGeometry n) st).faces.length
        = st.faces.length + (l.map (fContrib n)).sum := by
  induction l generalizing st with
  | nil => simp
  | cons p t ih =>
    obtain ⟨h1, h2, _⟩ := addSegmentGeometry_counts n st p
    obtain ⟨h4, h5⟩ := ih (addSegmentGeometry n st p)
    simp only [List.foldl_cons, List.map_cons, List.sum_cons]
    omega

theorem sum_range_indicator_zero : ∀ m, 1 ≤ m →
    ((List.range m).map (fun i => if i = 0 then (1 : ℕ) else 0)).sum = 1 := by
  intro m
  induction m with
  | zero => omega
  | succ k ih =>
    intro _
    rw [List.range_succ, List.map_append, List.sum_append]
    rcases Nat.eq_zero_or_pos k with h0 | h0
    · subst h0; rfl
    · rw [ih h0]; simp; omega

theorem sum_range_capIdx (M : ℕ) :
    ((List.range M).map (capIdx M)).sum = capCount M := by
  match M with
  | 0 => rfl
  | 1 => rfl
  | (k + 2) =>
    rw [List.range_succ, List.map_append, List.sum_append]
    have h1 : ((List.range (k + 1)).map (capIdx (k + 2))).sum = 1 := by
      have hc : ∀ i ∈ List.range (k + 1),
          capIdx (k + 2) i = (if i = 0 then 1 else 0) := by
        intro i hi
        rw [List.mem_range] at hi
        unfold capIdx
        rcases Nat.eq_zero_or_pos i with h0 | h0
        · subst h0; simp
        · rw [if_neg (by omega), if_neg (by omega)]
      rw [List.map_congr_left hc]
      exact sum_range_indicator_zero (k + 1) (by omega)
    have h2 : capIdx (k + 2) (k + 1) = 1 := by
      unfold capIdx; rw [if_pos (by omega)]
    rw [h1]
    simp [h2, capCount]

/-- C2 (amended): for a segment list all of whose sampled (`[::2]`) segments
are retained (non-degenerate), with M sampled segments and N = 8 sides, the
mesh has 2·N·M + 2·capCount M vertices and 2·N·M + 2·N·capCount M faces,
where capCount M is 0, 1, 2 for M = 0, M = 1, M ≥ 2: the first and the last
sampled segment each receive caps at both of their ends (two apex vertices
and 2·N cap triangles each), so for M ≥ 2 there are 4 extra vertices and
4·N extra faces, not 2 and 2·N. -/
theorem createMesh_sizing (segments : List Seg) (lh ew : ℚ)
    (hkeep : ∀ s ∈ everySecond segments, segKeep s) :
    (createCylindricalExtrusionMesh segments lh ew).1.length
      = 16 * (everySecond segments).length
        + 2 * capCount (everySecond segments).length ∧
    (createCylindricalExtrusionMesh segments lh ew).2.length
      = 16 * (everySecond segments).length
        + 16 * capCount (everySecond segments).length := by
  obtain ⟨h1, h2⟩ := foldl_addSegmentGeometry_counts
    (everySecond segments).length (everySecond segments).enum ⟨[], [], 0⟩
  have hV : ∀ p ∈ (everySecond segments).enum,
      vContrib (everySecond segments).length p
        = 16 + 2 * capIdx (everySecond segments).length p.1 := by
    rw [List.forall_mem_enum]
    intro i hi
    have hk := hkeep _ (List.getElem_mem hi)
    unfold vContrib
    rw [if_neg hk]
  have hF : ∀ p ∈ (everySecond segments).enum,
      fContrib (everySecond segments).length p
        = 16 + 16 * capIdx (everySecond segments).length p.1 := by
    rw [List.forall_mem_enum]
    intro i hi
    have hk := hkeep _ (List.getElem_mem hi)
    unfold fContrib
    rw [if_neg hk]
  have hsum : ∀ c : ℕ,
      ((everySecond segments).enum.map
        (fun p => 16 + c * capIdx (everySecond segments).length p.1)).sum
      = 16 * (everySecond segments).length
        + c * capCount (everySecond segments).length := by
    intro c
    have hm : (everySecond segments).enum.map
          (fun p => 16 + c * capIdx (everySecond segments).length p.1)
        = ((everySecond segments).enum.map Prod.fst).map
          (fun i => 16 + c * capIdx (everySecond segments).length i) := by
      rw [List.map_map]
      rfl
    rw [hm, List.enum_map_fst]
    have hadd : ((List.range (everySecond segments).length).map
          (fun i => 16 + c * capIdx (everySecond segments).length i)).sum
        = ((List.range (everySecond segments).length).map (fun _ => (16 : ℕ))).sum
          + ((List.range (everySecond segments).length).map
              (fun i => c * capIdx (everySecond segments).length i)).sum :=
      sum_map_add_nat _ _ _
    rw [hadd, sum_map_const_nat, List.length_range]
    have hmul : ((List.range (everySecond segments).length).map
          (fun i => c * capIdx (everySecond segments).length i)).sum
        = c * ((List.range (everySecond segments).length).map
            (capIdx (everySecond segments).length)).sum := by
      induction (List.range (everySecond segments).length) with
      | nil => simp
      | cons a t ih => simp only [List.map_cons, List.sum_cons, ih]; ring
    rw [hmul, sum_range_capIdx]
  constructor
  · rw [show (createCylindricalExtrusionMesh segments lh ew).1
        = ((everySecond segments).enum.foldl
            (addSegmentGeometry (everySecond segments).length) ⟨[], [], 0⟩).vertices
      from rfl]
    rw [h1, List.map_congr_left hV, hsum 2]
    simp
  · rw [show (createCylindricalExtrusionMesh segments lh ew).2
        = ((everySecond segments).enum.foldl
            (addSegmentGeometry (everySecond segments).length) ⟨[], [], 0⟩).faces
      from rfl]
    rw [h2, List.map_congr_left hF, hsum 16]
    simp

/-- Witness for `createMesh_sizing`: five retained segments sample to M = 3,
giving 16·3 + 4 = 52 vertices and 16·3 + 32 = 80 faces. -/
theorem createMesh_sizing_witness :
    (∀ s ∈ everySecond segsC2W, segKeep s) ∧
    (createCylindricalExtrusionMesh segsC2W 0.3 0.5).1.length
      = 16 * (everySecond segsC2W).length
        + 2 * capCount (everySecond segsC2W).length ∧
    (createCylindricalExtrusionMesh segsC2W 0.3 0.5).2.length
      = 16 * (everySecond segsC2W).length
        + 16 * capCount (everySecond segsC2W).length :=
  ⟨by decide, (createMesh_sizing segsC2W 0.3 0.5 (by decide)).1,
    (createMesh_sizing segsC2W 0.3 0.5 (by decide)).2⟩

theorem addSegmentGeometry_bounds (n : ℕ) (st : MeshState) (p : ℕ × Seg)
    (hvc : st.vertexCount = st.vertices.length)
    (hb : ∀ f ∈ st.faces,
      f.1 < st.vertexCount ∧ f.2.1 < st.vertexCount ∧ f.2.2 < st.vertexCount) :
    ((addSegmentGeometry n st p).vertexCount
        = (addSegmentGeometry n st p).vertices.length) ∧
    ∀ f ∈ (addSegmentGeometry n st p).faces,
      f.1 < (addSegmentGeometry n st p).vertexCount ∧
      f.2.1 < (addSegmentGeometry n st p).vertexCount ∧
      f.2.2 < (addSegmentGeometry n st p).vertexCount := by
  obtain ⟨hc1, hc2, hc3⟩ := addSegmentGeometry_counts n st p
  refine ⟨by omega, ?_⟩
  intro f hf
  have hmod : ∀ j : ℕ, (j + 1) % 8 < 8 := fun j => Nat.mod_lt _ (by norm_num)
  simp only [addSegmentGeometry] at hf ⊢
  split at hf
  · next h =>
    rw [if_pos h]
    exact hb f hf
  · next h =>
    rw [if_neg h]
    split at hf
    · next hcap =>
      rw [if_pos hcap]
      dsimp only
      simp only [List.mem_append, List.mem_flatMap, List.mem_map, List.mem_range,
        List.mem_cons, List.mem_singleton, List.not_mem_nil, or_false] at hf
      rcases hf with ((hf | hf) | hf) | hf
      · obtain ⟨a, b, c⟩ := hb f hf
        exact ⟨by omega, by omega, by omega⟩
      · obtain ⟨j, hj, hf | hf⟩ := hf <;> subst hf <;>
          exact ⟨by dsimp only; omega, by dsimp only; have := hmod j; omega,
            by dsimp only; omega⟩
      · obtain ⟨j, hj, hf⟩ := hf
        subst hf
        have := hmod j
        exact ⟨by dsimp only; omega, by dsimp only; omega, by dsimp only; omega⟩
      · obtain ⟨j, hj, hf⟩ := hf
        subst hf
        have := hmod j
        exact ⟨by dsimp only; omega, by dsimp only; omega, by dsimp only; omega⟩
    · next hcap =>
      rw [if_neg hcap]
      dsimp only
      simp only [List.mem_append, List.mem_flatMap, List.mem_range,
        List.mem_cons, List.mem_singleton, List.not_mem_nil, or_false] at hf
      rcases hf with hf | hf
      · obtain ⟨a, b, c⟩ := hb f hf
        exact ⟨by omega, by omega, by omega⟩
      · obtain ⟨j, hj, hf | hf⟩ := hf <;> subst hf <;>
          exact ⟨by dsimp only; omega, by dsimp only; have := hmod j; omega,
            by dsimp only; omega⟩

theorem foldl_addSegmentGeometry_bounds (n : ℕ) (l : List (ℕ × Seg)) (st : MeshState)
    (hvc : st.vertexCount = st.vertices.length)
    (hb : ∀ f ∈ st.faces,
      f.1 < st.vertexCount ∧ f.2.1 < st.vertexCount ∧ f.2.2 < st.vertexCount) :
    ((l.foldl (addSegmentGeometry n) st).vertexCount
        = (l.foldl (addSegmentGeometry n) st).vertices.length) ∧
    ∀ f ∈ (l.foldl (addSegmentGeometry n) st).faces,
      f.1 < (l.foldl (addSegmentGeometry n) st).vertexCount ∧
      f.2.1 < (l.foldl (addSegmentGeometry n) st).vertexCount ∧
      f.2.2 < (l.foldl (addSegmentGeometry n) st).vertexCount := by
  induction l generalizing st with
  | nil => exact ⟨hvc, hb⟩
  | cons p t ih =>
    obtain ⟨h1, h2⟩ := addSegmentGeometry_bounds n st p hvc hb
    exact ih (addSegmentGeometry n st p) h1 h2

/-- C6 (amended): every index in every emitted face is strictly below the
final vertex count.  (The second half of the claim is refuted separately:
no degenerate-face filtering exists in the code.) -/
theorem createMesh_face_indices (segments : List Seg) (lh ew : ℚ)
    (f : ℕ × ℕ × ℕ)
    (hf : f ∈ (createCylindricalExtrusionMesh segments lh ew).2) :
    f.1 < (createCylindricalExtrusionMesh segments lh ew).1.length ∧
    f.2.1 < (createCylindricalExtrusionMesh segments lh ew).1.length ∧
    f.2.2 < (createCylindricalExtrusionMesh segments lh ew).1.length := by
  obtain ⟨h1, h2⟩ := foldl_addSegmentGeometry_bounds
    (everySecond segments).length (everySecond segments).enum ⟨[], [], 0⟩ rfl
    (by intro f hf; exact absurd hf (List.not_mem_nil f))
  have := h2 f hf
  rw [h1] at this
  exact this

/-- Witness for `createMesh_face_indices` at a concrete mesh (a vertical
segment, exercising the fallback reference vector). -/
theorem createMesh_face_indices_witness :
    ((0, 1, 8) : ℕ × ℕ × ℕ) ∈ (createCylindricalExtrusionMesh [segVert] 0.2 0.4).2 ∧
    (0 : ℕ) < (createCylindricalExtrusionMesh [segVert] 0.2 0.4).1.length :=
  ⟨by decide, (createMesh_face_indices [segVert] 0.2 0.4 (0, 1, 8) (by decide)).1⟩

/-- C6 counterexample: no degenerate-face filter exists.  A retained segment
with zero width has cross-section radius min(width, height)/2 = 0, so its cap
fans consist of triangles whose three vertices all coincide, and they are
emitted anyway. -/
theorem mesh_degenerate_face_emitted :
    ∃ f ∈ (createCylindricalExtrusionMesh [segZeroWidth] 0.2 0.4).2,
      (createCylindricalExtrusionMesh [segZeroWidth] 0.2 0.4).1.getD f.1 zeroV
        = (createCylindricalExtrusionMesh [segZeroWidth] 0.2 0.4).1.getD f.2.1 zeroV ∧
      (createCylindricalExtrusionMesh [segZeroWidth] 0.2 0.4).1.getD f.2.1 zeroV
        = (createCylindricalExtrusionMesh [segZeroWidth] 0.2 0.4).1.getD f.2.2 zeroV := by
  decide

/-! ### Extractor structure lemmas -/

theorem scanComment_fields (n : ℕ) (st : PState) (l : List Char) :
    (scanComment n st l).segments = st.segments ∧
    (scanComment n st l).currentZ = st.currentZ ∧
    (scanComment n st l).lastX = st.lastX ∧
    (scanComment n st l).lastY = st.lastY ∧
    (scanComment n st l).lastZ = st.lastZ ∧
    (scanComment n st l).lastE = st.lastE := by
  unfold scanComment
  split <;> simp

theorem scanComment_no_semi (n : ℕ) (st : PState) (l : List Char)
    (h : hasPref semiKey l = false) : scanComment n st l = st := by
  unfold scanComment
  rw [h, Bool.and_false]
  simp

theorem applyZ_fields (st : PState) (zM : Option ℚ) :
    (applyZ st zM).segments = st.segments ∧
    (applyZ st zM).lastX = st.lastX ∧
    (applyZ st zM).lastY = st.lastY ∧
    (applyZ st zM).lastE = st.lastE ∧
    (applyZ st zM).detectedExtrusionWidth = st.detectedExtrusionWidth := by
  cases zM <;> simp [applyZ]

theorem emitSeg_currentZ (st : PState) (x y : Option ℚ) (e : ℚ) (b : Bool) :
    (emitSeg st x y e b).currentZ = st.currentZ := by
  unfold emitSeg
  split <;> rfl

theorem emitSeg_mem (st : PState) (x y : Option ℚ) (e : ℚ) (b : Bool) :
    ∀ s ∈ (emitSeg st x y e b).segments,
      s ∈ st.segments ∨
      ∃ xv yv lx ly, x = some xv ∧ y = some yv ∧
        st.lastX = some lx ∧ st.lastY = some ly ∧
        s = ⟨(lx, ly, st.currentZ), (xv, yv, st.currentZ),
             emittedWidth st xv yv lx ly e, st.detectedLayerHeight, e - st.lastE⟩ := by
  intro s hs
  unfold emitSeg at hs
  split at hs
  · rename_i xv yv lx ly hlx hly
    dsimp only at hs
    rw [List.mem_append] at hs
    rcases hs with h | h
    · exact Or.inl h
    · right
      exact ⟨xv, yv, lx, ly, rfl, rfl, hlx, hly, by simpa using h⟩
  · exact Or.inl hs

theorem semi_false_of_g (line : List Char)
    (h : (hasPref gOneKey line || hasPref gZeroKey line) = true) :
    hasPref semiKey line = false := by
  cases line with
  | nil => exact absurd h (by decide)
  | cons c cs =>
    have hc : c = 'G' := by
      rcases Bool.or_eq_true_iff.mp h with h1 | h1 <;>
        · simp [hasPref, gOneKey, gZeroKey] at h1
          exact h1.1.symm
    subst hc
    simp [hasPref, semiKey]

theorem processLine_currentZ_G (n : ℕ) (st : PState) (raw : List Char)
    (hG : (hasPref gOneKey (pyStrip raw) || hasPref gZeroKey (pyStrip raw)) = true) :
    (processLine n st raw).currentZ
      = (applyZ (scanComment n st (pyStrip raw)) (findNumFrom 'Z' (pyStrip raw))).currentZ := by
  simp only [processLine]
  rw [if_pos hG]
  dsimp only
  rw [emitSeg_currentZ]

/-- Every segment present after processing one line was either already
present, or is the newly appended segment: both its endpoints carry the
current Z resolved after this line's Z field, its width is the emission
width computed from the state st2 after comment scan and Z application, and
st2 agrees with st on the extrusion-width and position registers. -/
theorem processLine_new_seg (n : ℕ) (st : PState) (raw : List Char) :
    ∀ s ∈ (processLine n st raw).segments,
      s ∈ st.segments ∨
      ∃ xv yv lx ly e st2,
        st2.detectedExtrusionWidth = st.detectedExtrusionWidth ∧
        st2.segments = st.segments ∧
        s = ⟨(lx, ly, st2.currentZ), (xv, yv, st2.currentZ),
             emittedWidth st2 xv yv lx ly e, st2.detectedLayerHeight, e - st2.lastE⟩ ∧
        (processLine n st raw).currentZ = st2.currentZ := by
  intro s hs
  simp only [processLine] at hs
  split at hs
  · next hG =>
    have hsc := scanComment_no_semi n st (pyStrip raw) (semi_false_of_g _ hG)
    rw [hsc] at hs
    dsimp only at hs
    rcases emitSeg_mem _ _ _ _ _ s hs with h | ⟨xv, yv, lx, ly, hx, hy, hlx, hly, hseq⟩
    · left
      rwa [(applyZ_fields st _).1] at h
    · right
      refine ⟨xv, yv, lx, ly, _, applyZ st (findNumFrom 'Z' (pyStrip raw)),
        (applyZ_fields st _).2.2.2.2, (applyZ_fields st _).1, hseq, ?_⟩
      rw [processLine_currentZ_G n st raw hG, hsc]
  · left
    rwa [(scanComment_fields n st (pyStrip raw)).1] at hs

theorem emittedWidth_zero_length (st : PState) (xv yv lx ly e : ℚ)
    (h1 : lx = xv) (h2 : ly = yv) :
    emittedWidth st xv yv lx ly e = st.detectedExtrusionWidth := by
  unfold emittedWidth
  subst h1
  subst h2
  simp [ratSqrt_zero]

theorem emittedWidth_clamped (st : PState) (xv yv lx ly e : ℚ)
    (h : ¬(lx = xv ∧ ly = yv)) :
    0.1 ≤ emittedWidth st xv yv lx ly e ∧ emittedWidth st xv yv lx ly e ≤ 2.0 := by
  have hsq : 0 < (xv - lx) * (xv - lx) + (yv - ly) * (yv - ly) := by
    rcases not_and_or.mp h with hne | hne
    · have hz : xv - lx ≠ 0 := sub_ne_zero.mpr (fun hh => hne hh.symm)
      nlinarith [mul_self_nonneg (yv - ly), mul_self_pos.mpr hz]
    · have hz : yv - ly ≠ 0 := sub_ne_zero.mpr (fun hh => hne hh.symm)
      nlinarith [mul_self_nonneg (xv - lx), mul_self_pos.mpr hz]
  have hpos := ratSqrt_pos hsq
  unfold emittedWidth
  rw [if_pos hpos]
  exact ⟨le_min (le_max_right _ _) (by norm_num), min_le_right _ _⟩

/-! ### Claim C4: zero-length extrusion moves -/

/-- C4 counterexample: the extractor does not drop a zero-length
extrusion-bearing move; on `G1 X5 Y5 E2` after `G1 X5 Y5 E1` it emits a
segment with coincident endpoints, so the returned list does contain a
zero-length segment. -/
theorem zero_length_segment_in_output :
    ∃ s ∈ (parseGcodeToSegments linesC4 0.2 0.4).1, s.startP = s.endP := by decide

/-- C4 (amended): an extrusion-bearing motion line whose XY segment length is
numerically zero is emitted, not dropped; the width division is skipped and
the stored width is the detected extrusion width current at that line. -/
theorem processLine_zero_length_width (n : ℕ) (st : PState) (raw : List Char)
    (s : Seg) (hs : s ∈ (processLine n st raw).segments) (hnew : s ∉ st.segments)
    (hz : s.startP = s.endP) :
    s.width = st.detectedExtrusionWidth := by
  rcases processLine_new_seg n st raw s hs with h | ⟨xv, yv, lx, ly, e, st2, hdew, _, hseq, _⟩
  · exact absurd h hnew
  · subst hseq
    simp only [Prod.mk.injEq] at hz
    obtain ⟨h1, h2, -⟩ := hz
    show emittedWidth st2 xv yv lx ly e = st.detectedExtrusionWidth
    rw [emittedWidth_zero_length st2 xv yv lx ly e h1 h2, hdew]

/-- Witness for `processLine_zero_length_width` at a concrete state/line. -/
theorem processLine_zero_length_width_witness :
    segC4W ∈ (processLine 0 stC4W lineC4W).segments ∧
    segC4W ∉ stC4W.segments ∧ segC4W.startP = segC4W.endP ∧
    segC4W.width = stC4W.detectedExtrusionWidth :=
  ⟨by decide, by decide, by decide,
    processLine_zero_length_width 0 stC4W lineC4W segC4W (by decide) (by decide) (by decide)⟩

/-! ### Claim C7: the width clamp -/

/-- C7 counterexample: the clamp applies only when the segment length is
positive.  A zero-length extrusion move stores the detected extrusion width
unclamped — here 5, taken from a slicer comment — which lies outside
[0.1, 2.0]. -/
theorem width_clamp_violated_for_zero_length :
    ∃ s ∈ (parseGcodeToSegments linesC7 0.2 0.4).1,
      s.width = 5 ∧ ¬(0.1 ≤ s.width ∧ s.width ≤ 2.0) := by decide

/-- C7 (amended): every segment emitted for a motion line with positive XY
length stores a width in [0.1, 2.0]. -/
theorem processLine_width_clamped (n : ℕ) (st : PState) (raw : List Char)
    (s : Seg) (hs : s ∈ (processLine n st raw).segments) (hnew : s ∉ st.segments)
    (hz : s.startP ≠ s.endP) :
    0.1 ≤ s.width ∧ s.width ≤ 2.0 := by
  rcases processLine_new_seg n st raw s hs with h | ⟨xv, yv, lx, ly, e, st2, _, _, hseq, _⟩
  · exact absurd h hnew
  · subst hseq
    have h : ¬(lx = xv ∧ ly = yv) := by
      intro hh
      exact hz (by rw [hh.1, hh.2])
    exact emittedWidth_clamped st2 xv yv lx ly e h

/-- Witness for `processLine_width_clamped` at a concrete state/line. -/
theorem processLine_width_clamped_witness :
    segC7W ∈ (processLine 0 stC7W lineC7W).segments ∧
    segC7W ∉ stC7W.segments ∧ segC7W.startP ≠ segC7W.endP ∧
    (0.1 ≤ segC7W.width ∧ segC7W.width ≤ 2.0) :=
  ⟨by decide, by decide, by decide,
    processLine_width_clamped 0 stC7W lineC7W segC7W (by decide) (by decide) (by decide)⟩

/-! ### Claim C8: unparsable numeric tokens -/

/-- C8 counterexample: on a recognized motion line with the malformed field
`Xabc`, the extractor raises nothing: the run is identical to the run with
the X field absent, the X register is silently carried forward, and a
segment is still produced.  (No ParseError exists in the code.) -/
theorem unparsable_token_no_failure :
    parseGcodeToSegments linesC8bad 0.2 0.4 = parseGcodeToSegments linesC8absent 0.2 0.4 ∧
    (parseGcodeToSegments linesC8bad 0.2 0.4).1
      = [⟨(5, 0, 0), (5, 0, 0), 0.4, 0.2, 5⟩] := by decide

/-- C8 (amended): a recognized field whose numeric token is unparsable is
treated exactly as if the field were absent: from any extractor state, the
line `G1 Xabc Y0 E5` produces the same state as `G1 Y0 E5` (the previous X is
carried forward; no error is raised). -/
theorem bad_token_treated_as_absent (n : ℕ) (st : PState) :
    processLine n st badTokenLine = processLine n st absentFieldLine := by
  have hs1 : scanComment n st (pyStrip badTokenLine) = st :=
    scanComment_no_semi n st _ (by decide)
  have hs2 : scanComment n st (pyStrip absentFieldLine) = st :=
    scanComment_no_semi n st _ (by decide)
  have hg1 : (hasPref gOneKey (pyStrip badTokenLine)
      || hasPref gZeroKey (pyStrip badTokenLine)) = true := by decide
  have hg2 : (hasPref gOneKey (pyStrip absentFieldLine)
      || hasPref gZeroKey (pyStrip absentFieldLine)) = true := by decide
  have hx1 : findNumFrom 'X' (pyStrip badTokenLine) = none := by decide
  have hx2 : findNumFrom 'X' (pyStrip absentFieldLine) = none := by decide
  have hy1 : findNumFrom 'Y' (pyStrip badTokenLine) = some 0 := by decide
  have hy2 : findNumFrom 'Y' (pyStrip absentFieldLine) = some 0 := by decide
  have hz1 : findNumFrom 'Z' (pyStrip badTokenLine) = none := by decide
  have hz2 : findNumFrom 'Z' (pyStrip absentFieldLine) = none := by decide
  have he1 : findNumFrom 'E' (pyStrip badTokenLine) = some 5 := by decide
  have he2 : findNumFrom 'E' (pyStrip absentFieldLine) = some 5 := by decide
  simp only [processLine, hs1, hs2, hg1, hg2, hx1, hx2, hy1, hy2, hz1, hz2, he1, he2,
    if_true]

/-! ### Claim C10: emitted segments are horizontal -/

/-- C10: every emitted segment has equal start and end Z; moreover any
segment appended while processing one line carries, on both endpoints, the
Z value resolved after applying that line's Z field (the resulting state's
current Z) — so a line that both raises Z and extrudes starts its segment at
the previous XY position lifted to the new Z. -/
theorem parse_segments_horizontal (lines : List (List Char)) (dlh dew : ℚ) :
    (∀ s ∈ (parseGcodeToSegments lines dlh dew).1, s.startP.2.2 = s.endP.2.2) ∧
    (∀ (n : ℕ) (st : PState) (raw : List Char),
      ∀ s ∈ (processLine n st raw).segments,
        s ∈ st.segments ∨
        (s.startP.2.2 = (processLine n st raw).currentZ ∧
         s.endP.2.2 = (processLine n st raw).currentZ)) := by
  have hstep : ∀ (n : ℕ) (st : PState) (raw : List Char),
      ∀ s ∈ (processLine n st raw).segments,
        s ∈ st.segments ∨
        (s.startP.2.2 = (processLine n st raw).currentZ ∧
         s.endP.2.2 = (processLine n st raw).currentZ) := by
    intro n st raw s hs
    rcases processLine_new_seg n st raw s hs with h | ⟨xv, yv, lx, ly, e, st2, _, _, hseq, hcz⟩
    · exact Or.inl h
    · right
      subst hseq
      exact ⟨by rw [hcz], by rw [hcz]⟩
  refine ⟨?_, hstep⟩
  have hrun : ∀ (ls : List (List Char)) (n : ℕ) (st : PState),
      (∀ s ∈ st.segments, s.startP.2.2 = s.endP.2.2) →
      ∀ s ∈ (parseLinesFrom n st ls).segments, s.startP.2.2 = s.endP.2.2 := by
    intro ls
    induction ls with
    | nil => intro n st h; exact h
    | cons l t ih =>
      intro n st h
      apply ih
      intro s hs
      rcases hstep n st l s hs with h1 | ⟨h2, h3⟩
      · exact h s h1
      · rw [h2, h3]
  intro s hs
  exact hrun lines 0 (initState dlh dew)
    (by intro u hu; exact absurd hu (List.not_mem_nil u)) s hs

/-- Witness for `parse_segments_horizontal`: a line that raises Z to 0.3 and
extrudes yields a segment lying entirely at the new Z. -/
theorem parse_segments_horizontal_witness :
    segC10 ∈ (parseGcodeToSegments linesC10 0.2 0.4).1 ∧
    segC10.startP.2.2 = segC10.endP.2.2 :=
  ⟨by decide, (parse_segments_horizontal linesC10 0.2 0.4).1 segC10 (by decide)⟩
